import Mathlib

/-!
Verification of the `CustomFastAPIDatafeed` component (`src/datafeed.ts` of the
react-poc-frontend repository) against its natural-language specification.

The TypeScript class is shallowly embedded as pure Lean functions over an
explicit state record.  Conventions used throughout:

* JavaScript numbers that the code only stores and compares (epoch
  milliseconds, prices, volumes, HTTP status codes) are modelled as `Int`/`Nat`.
* A JavaScript `undefined` or `NaN` produced by the code's loose numeric
  handling is modelled as `none : Option Int`; defined numbers are `some v`.
* The `Map` that backs the chart cache is modelled as an insertion-ordered
  association list, mirroring JavaScript `Map` semantics (`set` updates in
  place, `delete` removes, iteration follows insertion order).
* `Date.now()` is passed in explicitly as `now`; each public call uses a single
  instant, and the host timezone is modelled as UTC.
* The two external dependencies (supabase auth, `fetch`) are oracles supplied
  per call: `AuthEnv` fixes the token-lookup result, the refresh result and the
  (at most two) HTTP responses a single `getHistoryKLineData` call can consume;
  `instrumentsApi.getAll()` is an `Except Unit InstrumentsResponse` argument.
* `localStorage` persistence is in the `persist = false` configuration (the
  constructor default); `saveToLocalStorage` is then a no-op and is omitted.
* `console.*` logging is omitted.
-/

namespace Datafeed

/-! ## JavaScript string primitives used by the source -/

/-- Model of `String.prototype.startsWith`: character-list prefix test. -/
def strStartsWith (s pre : String) : Bool :=
  pre.data.isPrefixOf s.data

/-- Helper for `strIncludes`: does `hay` contain `needle` as a contiguous run? -/
def listContainsSeq (needle : List Char) : List Char → Bool
  | [] => needle.isEmpty
  | c :: rest => needle.isPrefixOf (c :: rest) || listContainsSeq needle rest

/-- Model of `String.prototype.includes`: substring containment. -/
def strIncludes (s sub : String) : Bool :=
  listContainsSeq sub.data s.data

/-- Model of `String.prototype.toLowerCase` restricted to ASCII (sufficient for
the ticker/name data this component handles). -/
def strToLower (s : String) : String :=
  String.mk (s.data.map (fun c => if 'A' ≤ c && c ≤ 'Z' then Char.ofNat (c.toNat + 32) else c))

/-- ASCII whitespace, for the `trim` model. -/
def isWsChar (c : Char) : Bool :=
  c = ' ' || c = '\t' || c = '\n' || c = '\r'

/-- Drop leading whitespace characters. -/
def dropWsLead : List Char → List Char
  | [] => []
  | c :: rest => if isWsChar c then dropWsLead rest else c :: rest

/-- Model of `String.prototype.trim` (ASCII whitespace). -/
def jsTrim (s : String) : String :=
  String.mk ((dropWsLead (dropWsLead s.data).reverse).reverse)

/-! ## OHLCV wire model and normalization

`getHistoryKLineData` accepts rows either as legacy tuples
`[timestamp, open, high, low, close, volume]` or as named-field objects
(`unix_time`/`timestamp`, `open`, …).  A missing array slot or object property
is JavaScript `undefined`, modelled as `none`; arithmetic on it (`* 1000`)
yields `NaN`, also modelled as `none`. -/

/-- One raw row of the wire response. -/
inductive WireItem where
  | tuple (vals : List Int)
  | named (unix_time timestamp «open» high low close volume : Option Int)
deriving DecidableEq, Repr

/-- One normalized bar handed to the chart (`KLineData`). -/
structure KLineData where
  timestamp : Option Int
  «open» : Option Int
  high : Option Int
  low : Option Int
  close : Option Int
  volume : Option Int
deriving DecidableEq, Repr

/-- JavaScript `a || b` on numbers-or-undefined: `0`, `NaN` and `undefined`
are falsy, every other number is truthy. -/
def jsOr (a b : Option Int) : Option Int :=
  match a with
  | some v => if v = 0 then b else some v
  | none => b

/-- The row normalization in `getHistoryKLineData` (`rawData.map(...)`).
Tuple rows are destructured positionally; named rows use
`(item.unix_time || item.timestamp) * 1000`. -/
def normalizeItem : WireItem → KLineData
  | .tuple vals =>
    { timestamp := (vals.get? 0).map (· * 1000)
      «open» := vals.get? 1
      high := vals.get? 2
      low := vals.get? 3
      close := vals.get? 4
      volume := vals.get? 5 }
  | .named ut ts o h l c v =>
    { timestamp := (jsOr ut ts).map (· * 1000)
      «open» := o
      high := h
      low := l
      close := c
      volume := v }

/-! ## Response envelope detection -/

/-- The value found at `response.data` / `.results` / `.ohlcv` / `.values`:
either an array of rows, or some present non-array value (any truthiness). -/
inductive JsField where
  | arr (items : List WireItem)
  | nonArray
deriving DecidableEq, Repr

/-- A parsed JSON response body: a bare top-level array, or an object with the
four optionally-present envelope properties. -/
inductive Resp where
  | bareArray (items : List WireItem)
  | obj (data results ohlcv values : Option JsField)
deriving DecidableEq, Repr

/-- `response.f && Array.isArray(response.f)`: matches exactly when the
property is present and is an array (arrays are always truthy). -/
def fieldArray : Option JsField → Option (List WireItem)
  | some (.arr l) => some l
  | some .nonArray => none
  | none => none

/-- The envelope-probing chain of `getHistoryKLineData`: bare array, then
`data`, `results`, `ohlcv`, `values`; `none` means the final `else` branch
(`throw new Error('Invalid data format received from API')`). -/
def extractRawData : Resp → Option (List WireItem)
  | .bareArray l => some l
  | .obj d r o v =>
    match fieldArray d with
    | some l => some l
    | none =>
      match fieldArray r with
      | some l => some l
      | none =>
        match fieldArray o with
        | some l => some l
        | none => fieldArray v

/-! ## Auth token lookup and authenticated fetch -/

/-- Outcome of `supabase.auth.getSession()` as seen by `getAuthToken`. -/
inductive TokenSource where
  | sessionAbsent
  | sessionWith (access_token : String)
  | lookupError
deriving DecidableEq, Repr

/-- `getAuthToken`: returns `session?.access_token || null`, and `null` when
the lookup throws (the `catch` branch). An empty-string token is falsy in
JavaScript, hence also `null`. -/
def getAuthToken : TokenSource → Option String
  | .sessionAbsent => none
  | .lookupError => none
  | .sessionWith t => if t = "" then none else some t

/-- One HTTP response: status code plus parsed JSON body. -/
structure HttpResp where
  status : Nat
  body : Resp
deriving DecidableEq, Repr

/-- `Response.ok` per the fetch standard: status in the range 200–299. -/
def respOk (status : Nat) : Bool :=
  200 ≤ status && status ≤ 299

/-- The error taxonomy of the component, one constructor per distinct `throw`
site of the source (§7 of the spec names them `AuthenticationRequired`,
`AuthenticationFailed`, `RemoteRequestFailed{status}`, `MalformedResponse`):
* `authenticationRequired` — `'No authentication token available'`;
* `authenticationFailed` — `'Authentication failed - please log in again'`;
* `httpError s` — ``​`HTTP error! status: ${s}`​``;
* `invalidDataFormat` — `'Invalid data format received from API'`. -/
inductive FetchError where
  | authenticationRequired
  | authenticationFailed
  | httpError (status : Nat)
  | invalidDataFormat
deriving DecidableEq, Repr

/-- The external world one `fetchWithAuth` call can observe: the token lookup,
the refresh outcome (`none` models `error || !session`), and the first and
(potential) retry HTTP responses. -/
structure AuthEnv where
  tokenSource : TokenSource
  refreshResult : Option String
  resp1 : HttpResp
  resp2 : HttpResp
deriving DecidableEq, Repr

/-- One issued HTTP request: target URL and the bearer token attached. -/
structure Request where
  url : String
  token : String
deriving DecidableEq, Repr

deriving instance DecidableEq for Except

/-- Result of `fetchWithAuth`, together with the requests it issued (in order)
and the number of `refreshSession()` attempts it made. -/
structure FetchOutcome where
  result : Except FetchError Resp
  requests : List Request
  refreshes : Nat
deriving DecidableEq, Repr

/-- `fetchWithAuth(url)`: token lookup, first fetch, and on a 401 a single
refresh followed by a single retry.  A non-401 non-ok first response and a
non-ok retry response both throw the HTTP-status error. -/
def fetchWithAuth (env : AuthEnv) (url : String) : FetchOutcome :=
  match getAuthToken env.tokenSource with
  | none => ⟨.error .authenticationRequired, [], 0⟩
  | some token =>
    if env.resp1.status = 401 then
      match env.refreshResult with
      | none => ⟨.error .authenticationFailed, [⟨url, token⟩], 1⟩
      | some newTok =>
        if respOk env.resp2.status then
          ⟨.ok env.resp2.body, [⟨url, token⟩, ⟨url, newTok⟩], 1⟩
        else
          ⟨.error (.httpError env.resp2.status), [⟨url, token⟩, ⟨url, newTok⟩], 1⟩
    else if respOk env.resp1.status then
      ⟨.ok env.resp1.body, [⟨url, token⟩], 0⟩
    else
      ⟨.error (.httpError env.resp1.status), [⟨url, token⟩], 0⟩

/-! ## The chart cache (a JavaScript `Map` as an insertion-ordered list) -/

/-- A cache entry: the stored series and its insertion instant. -/
structure CacheEntry where
  data : List KLineData
  timestamp : Int
deriving DecidableEq, Repr

/-- The backing store of `this.cache`. -/
abbrev CacheMap := List (String × CacheEntry)

/-- `Map.prototype.get`. -/
def mapGet (m : CacheMap) (k : String) : Option CacheEntry :=
  (m.find? (fun p => p.1 == k)).map (·.2)

/-- `Map.prototype.set`: update in place if the key exists, else append. -/
def mapSet (m : CacheMap) (k : String) (v : CacheEntry) : CacheMap :=
  if m.any (fun p => p.1 == k) then
    m.map (fun p => if p.1 == k then (k, v) else p)
  else
    m ++ [(k, v)]

/-- `Map.prototype.delete`. -/
def mapDelete (m : CacheMap) (k : String) : CacheMap :=
  m.filter (fun p => p.1 != k)

/-- A timeframe as supplied by the chart library: `period.multiplier` and
`period.timespan` (e.g. `5` and `"minute"`). -/
structure Period where
  multiplier : Int
  timespan : String
deriving DecidableEq, Repr

/-- The `SymbolInfo` shape of the chart library; optional fields model
possibly-`undefined` properties. -/
structure SymbolInfo where
  ticker : String
  name : Option String
  shortName : Option String
  exchange : Option String
  market : Option String
  type : Option String
deriving DecidableEq, Repr

/-- One instrument of the backend catalog (the fields this component reads;
the remaining catalog fields are never consulted by the code under audit). -/
structure Instrument where
  symbol : String
  name : Option String
  shortName : Option String
  exchange : Option String
  market : Option String
  type : Option String
deriving DecidableEq, Repr

/-- Body of `GET /api/v1/ohlcv/instruments`. -/
structure InstrumentsResponse where
  count : Int
  instruments : List Instrument
  lastUpdated : String
deriving DecidableEq, Repr

/-- The single-slot instruments cache (`InstrumentsCacheEntry`). -/
structure InstrumentsCacheEntry where
  instruments : List Instrument
  timestamp : Int
deriving DecidableEq, Repr

/-- `CacheConfig` with `persist = false`; the constructor defaults are
`maxEntries = 100`, `expirationTime = 300000`. -/
structure CacheConfig where
  maxEntries : Nat
  expirationTime : Int
deriving DecidableEq, Repr

/-- The mutable state of one `CustomFastAPIDatafeed` instance. -/
structure DatafeedState where
  baseUrl : String
  cacheConfig : CacheConfig
  cache : CacheMap
  instrumentsCache : Option InstrumentsCacheEntry
deriving DecidableEq, Repr

/-! ## Eviction (`cleanExpiredEntries`)

The capacity step sorts the surviving entries by `timestamp` ascending with a
stable sort (JavaScript `Array.prototype.sort` is stable) and deletes the
oldest `size - maxEntries` of them.  The stable sort is realized as insertion
sort: `insTS` walks past strictly-smaller timestamps, so an element is placed
before every element of equal timestamp that was inserted into the
accumulator earlier (i.e. that sat further right in the original list). -/

/-- Insert one entry into a timestamp-sorted list, before equal timestamps. -/
def insTS (x : String × CacheEntry) : CacheMap → CacheMap
  | [] => [x]
  | y :: ys => if y.2.timestamp < x.2.timestamp then y :: insTS x ys else x :: y :: ys

/-- Stable sort by `timestamp` ascending, as performed by
`[...this.cache.entries()].sort((a, b) => a[1].timestamp - b[1].timestamp)`. -/
def sortTS (m : CacheMap) : CacheMap :=
  m.foldr insTS []

/-- The expiry sweep of `cleanExpiredEntries`: delete every entry with
`now - timestamp > expirationTime`. -/
def expiryFilter (now exp : Int) (m : CacheMap) : CacheMap :=
  m.filter (fun p => !(decide (now - p.2.timestamp > exp)))

/-- The capacity sweep of `cleanExpiredEntries`: if the store still exceeds
`maxE`, delete the `length - maxE` entries of oldest `timestamp`. -/
def capacityTrim (maxE : Nat) (m : CacheMap) : CacheMap :=
  if m.length > maxE then
    ((sortTS m).take (m.length - maxE)).foldl (fun acc p => mapDelete acc p.1) m
  else m

/-- `cleanExpiredEntries`: drop entries with `now - timestamp > expirationTime`,
then, if still above `maxEntries`, delete the oldest surplus entries. -/
def cleanExpiredEntries (now : Int) (s : DatafeedState) : DatafeedState :=
  let c := capacityTrim s.cacheConfig.maxEntries
    (expiryFilter now s.cacheConfig.expirationTime s.cache)
  { s with cache := c }

/-! ## UTC calendar model of the JavaScript `Date` built-ins

`getHistoryKLineData` uses `new Date(ms).toISOString().split('T')[0]` for the
query dates and `new Date(ms).getFullYear()` in the yearly-range guard.  These
are platform built-ins, modelled here from the ECMAScript specification
(ECMA-262 §21.4.1, proleptic Gregorian calendar; the host timezone is taken to
be UTC).  `Int` division `/` and `%` are Euclidean, which for the positive
divisors used here coincide with the specification's `floor` and
`modulo` operations. -/

/-- ECMA-262 `DayFromYear(y)`: days from 1970-01-01 to the start of year `y`. -/
def dayFromYear (y : Int) : Int :=
  365 * (y - 1970) + (y - 1969) / 4 - (y - 1901) / 100 + (y - 1601) / 400

/-- `dayFromYear` relative to the 400-year cycle anchored at 1970. -/
def yearDays (k : Nat) : Int :=
  dayFromYear (1970 + k)

/-- ECMA-262 `YearFromTime` on a day number: the largest year whose first day
is at most `d`.  Computed by reducing modulo the 146097-day Gregorian cycle
and searching the 400 years of one cycle. -/
def yearFromDay (d : Int) : Int :=
  let e := d / 146097
  let r := d % 146097
  1970 + 400 * e + (Nat.findGreatest (fun k => yearDays k ≤ r) 399 : Int)

/-- Milliseconds per day. -/
def msPerDay : Int := 86400000

/-- ECMA-262 `Day(t)`. -/
def jsDay (t : Int) : Int := t / msPerDay

/-- `new Date(t).getFullYear()` with the host timezone modelled as UTC
(equally, `getUTCFullYear`). -/
def jsFullYear (t : Int) : Int := yearFromDay (jsDay t)

/-- ECMA-262 `DaysInYear(y) = 366` test. -/
def isLeapYear (y : Int) : Bool :=
  (y % 4 = 0 && y % 100 ≠ 0) || y % 400 = 0

/-- Month lengths, January first. -/
def monthLengths (leap : Bool) : List Int :=
  [31, if leap then 29 else 28, 31, 30, 31, 30, 31, 31, 30, 31, 30, 31]

/-- Walk the month table: from a day-within-year, produce the zero-based month
and one-based day of month. -/
def splitMonth : List Int → Int → Nat → Nat × Int
  | [], dwy, m => (m, dwy + 1)
  | len :: rest, dwy, m =>
    if dwy < len then (m, dwy + 1) else splitMonth rest (dwy - len) (m + 1)

/-- Left-pad a (non-negative) integer with zeros to the given width. -/
def padNum (width : Nat) (n : Int) : String :=
  let s := toString n
  if s.length < width then String.mk (List.replicate (width - s.length) '0') ++ s else s

/-- Year formatting of `Date.prototype.toISOString` (expanded-year form
outside 0000–9999). -/
def padYear (y : Int) : String :=
  if 0 ≤ y && y ≤ 9999 then padNum 4 y
  else if y < 0 then "-" ++ padNum 6 (-y)
  else "+" ++ padNum 6 y

/-- `new Date(t).toISOString().split('T')[0]`: the UTC calendar date of `t`
as `YYYY-MM-DD`. -/
def isoDateUTC (t : Int) : String :=
  let d := jsDay t
  let y := yearFromDay d
  let dwy := d - dayFromYear y
  let md := splitMonth (monthLengths (isLeapYear y)) dwy 0
  padYear y ++ "-" ++ padNum 2 ((md.1 : Int) + 1) ++ "-" ++ padNum 2 md.2

/-! ## `getHistoryKLineData` -/

/-- `getTimeframeCode`'s `timespanMap` lookup. -/
def timespanCode (timespan : String) : Option String :=
  match timespan with
  | "minute" => some "m"
  | "hour" => some "h"
  | "day" => some "d"
  | "week" => some "w"
  | "month" => some "M"
  | "year" => some "Y"
  | _ => none

/-- `getTimeframeCode(multiplier, timespan)`: unknown timespans fall back to
minutes. -/
def getTimeframeCode (multiplier : Int) (timespan : String) : String :=
  match timespanCode timespan with
  | none => toString multiplier ++ "m"
  | some code => toString multiplier ++ code

/-- The cache key
`` `${symbol.ticker}-${period.multiplier}${period.timespan}-${from}-${to}` ``. -/
def mkCacheKey (ticker : String) (period : Period) (fromMs toMs : Int) : String :=
  ticker ++ "-" ++ toString period.multiplier ++ period.timespan ++ "-"
    ++ toString fromMs ++ "-" ++ toString toMs

/-- The OHLCV request URL built by `getHistoryKLineData`. -/
def klineUrl (baseUrl ticker : String) (period : Period) (fromMs toMs : Int) : String :=
  baseUrl ++ "/api/v1/ohlcv/data?symbol=" ++ ticker
    ++ "&start_date=" ++ isoDateUTC fromMs ++ "&end_date=" ++ isoDateUTC toMs
    ++ "&timeframe=" ++ getTimeframeCode period.multiplier period.timespan
    ++ "&source_resolution=1Y"

/-- Result of one `getHistoryKLineData` call: the returned series or thrown
error, the state afterwards, the HTTP requests issued, and the number of
refresh attempts. -/
structure KLineOutcome where
  result : Except FetchError (List KLineData)
  state : DatafeedState
  requests : List Request
  refreshes : Nat
deriving DecidableEq, Repr

/-- The yearly-timeframe range correction (`correctedFrom`): when the chart
library hands a wildly wrong `from` for a yearly period, rewind 20 years from
`to`; `correctedTo` always equals `to`. -/
def correctedFromMs (period : Period) (fromMs toMs : Int) : Int :=
  if period.timespan = "year" ∧ jsFullYear fromMs > jsFullYear toMs + 10 then
    toMs - 20 * 365 * 24 * 60 * 60 * 1000
  else fromMs

/-- Envelope detection applied to the outcome of the authenticated fetch: an
upstream error propagates, an unrecognized body shape becomes
`invalidDataFormat`. -/
def fetchParse (r : Except FetchError Resp) : Except FetchError (List WireItem) :=
  match r with
  | .error e => .error e
  | .ok body =>
    match extractRawData body with
    | none => .error .invalidDataFormat
    | some raw => .ok raw

/-- The fetch-and-insert path of `getHistoryKLineData` (reached on a cache
miss): yearly-range correction, URL construction, authenticated fetch,
envelope detection, normalization, cache insertion. -/
def klineFetch (env : AuthEnv) (now : Int) (s1 : DatafeedState) (symbol : SymbolInfo)
    (period : Period) (fromMs toMs : Int) (cacheKey : String) : KLineOutcome :=
  let url := klineUrl s1.baseUrl symbol.ticker period (correctedFromMs period fromMs toMs) toMs
  let fo := fetchWithAuth env url
  match fetchParse fo.result with
  | .error e => ⟨.error e, s1, fo.requests, fo.refreshes⟩
  | .ok raw =>
    let data := raw.map normalizeItem
    ⟨.ok data, { s1 with cache := mapSet s1.cache cacheKey ⟨data, now⟩ },
      fo.requests, fo.refreshes⟩

/-- `getHistoryKLineData(symbol, period, from, to)`. -/
def getHistoryKLineData (env : AuthEnv) (now : Int) (s : DatafeedState)
    (symbol : SymbolInfo) (period : Period) (fromMs toMs : Int) : KLineOutcome :=
  let s1 := cleanExpiredEntries now s
  let cacheKey := mkCacheKey symbol.ticker period fromMs toMs
  match mapGet s1.cache cacheKey with
  | some entry =>
    if now - entry.timestamp ≤ s1.cacheConfig.expirationTime then
      ⟨.ok entry.data, s1, [], 0⟩
    else klineFetch env now s1 symbol period fromMs toMs cacheKey
  | none => klineFetch env now s1 symbol period fromMs toMs cacheKey

/-! ## `clearCache` -/

/-- `clearCache(symbol?, period?)`. -/
def clearCache (s : DatafeedState) (symbol : Option SymbolInfo) (period : Option Period) :
    DatafeedState :=
  if symbol.isNone && period.isNone then { s with cache := [] }
  else
    let keyPre := match symbol with
      | some sy => sy.ticker ++ "-"
      | none => ""
    let tf := match period with
      | some p => toString p.multiplier ++ p.timespan ++ "-"
      | none => ""
    let keep := fun (p : String × CacheEntry) =>
      !(strStartsWith p.1 keyPre && (period.isNone || strIncludes p.1 tf))
    { s with cache := s.cache.filter keep }

/-! ## Symbol discovery (`getInstruments`, `searchSymbols`) -/

/-- `instrumentsCacheExpiry` (5 minutes). -/
def instrumentsCacheExpiry : Int := 5 * 60 * 1000

/-- `getInstruments()`: serve from the single-slot cache while fresh, else
refetch; on fetch failure fall back to any previously fetched (possibly
expired) catalog, and to `[]` only when none exists.  The `api` argument is
the outcome of `instrumentsApi.getAll()`. -/
def getInstruments (api : Except Unit InstrumentsResponse) (now : Int)
    (s : DatafeedState) : List Instrument × DatafeedState :=
  match s.instrumentsCache with
  | some c =>
    if now - c.timestamp < instrumentsCacheExpiry then
      (c.instruments, s)
    else
      match api with
      | .ok r => (r.instruments, { s with instrumentsCache := some ⟨r.instruments, now⟩ })
      | .error _ => (c.instruments, s)
  | none =>
    match api with
    | .ok r => (r.instruments, { s with instrumentsCache := some ⟨r.instruments, now⟩ })
    | .error _ => ([], s)

/-- JavaScript `a || b` for a possibly-undefined string against a default
(`''` and `undefined` are falsy). -/
def jsStrOr (a : Option String) (b : String) : String :=
  match a with
  | some v => if v = "" then b else v
  | none => b

/-- `instrumentToSymbolInfo`. -/
def instrumentToSymbolInfo (i : Instrument) : SymbolInfo :=
  { ticker := i.symbol
    name := some (jsStrOr i.name i.symbol)
    shortName := some (jsStrOr i.shortName i.symbol)
    exchange := some (jsStrOr i.exchange "UNKNOWN")
    market := some (jsStrOr i.market "UNKNOWN")
    type := some (jsStrOr i.type "UNKNOWN") }

/-- The hardcoded fallback symbol returned when no instruments are available
(and from the `catch` branch, unreachable in this model). -/
def esFallbackSymbol : SymbolInfo :=
  { ticker := "ES"
    name := some "E-mini S&P 500"
    shortName := some "ES"
    exchange := some "CME"
    market := some "FUTURES"
    type := some "FUT" }

/-- `searchSymbols(search?)`: list the catalog as `SymbolInfo`s, with the ES
fallback for an empty catalog and optional case-insensitive substring
filtering over ticker, name and short name. -/
def searchSymbols (api : Except Unit InstrumentsResponse) (now : Int)
    (s : DatafeedState) (search : Option String) : List SymbolInfo × DatafeedState :=
  let r := getInstruments api now s
  if r.1.length = 0 then ([esFallbackSymbol], r.2)
  else
    let symbolInfos := r.1.map instrumentToSymbolInfo
    let out := match search with
      | none => symbolInfos
      | some q =>
        if q ≠ "" ∧ jsTrim q ≠ "" then
          let ql := jsTrim (strToLower q)
          symbolInfos.filter (fun sy =>
            strIncludes (strToLower sy.ticker) ql
              || strIncludes (strToLower (jsStrOr sy.name "")) ql
              || strIncludes (strToLower (jsStrOr sy.shortName "")) ql)
        else symbolInfos
    (out, r.2)

/-! ## Association-list and sorting lemmas -/

/-- Boolean membership of a key in a key list. -/
def keyMem (k : String) : List String → Bool
  | [] => false
  | x :: xs => k == x || keyMem k xs

theorem keyMem_iff {k : String} {ks : List String} : keyMem k ks = true ↔ k ∈ ks := by
  induction ks with
  | nil => simp [keyMem]
  | cons a as ih => simp [keyMem, ih]

theorem mapGet_eq_none_iff {m : CacheMap} {k : String} :
    mapGet m k = none ↔ ∀ p ∈ m, p.1 ≠ k := by
  simp [mapGet, List.find?_eq_none]

theorem mapGet_mem {m : CacheMap} {k : String} {v : CacheEntry}
    (h : mapGet m k = some v) : (k, v) ∈ m := by
  unfold mapGet at h
  cases hf : m.find? (fun p => p.1 == k) with
  | none => rw [hf] at h; simp at h
  | some p =>
    rw [hf] at h
    have hp := List.find?_some hf
    have hmem := List.mem_of_find?_eq_some hf
    simp at h hp
    have he : p = (k, v) := by
      cases p with
      | mk a b => simp_all
    rwa [he] at hmem

theorem mapGet_eq_some_of_mem {m : CacheMap} {k : String} {v : CacheEntry}
    (hnd : (m.map Prod.fst).Nodup) (hm : (k, v) ∈ m) : mapGet m k = some v := by
  induction m with
  | nil => cases hm
  | cons p rest ih =>
    simp only [List.map_cons, List.nodup_cons] at hnd
    rcases List.mem_cons.mp hm with h | h
    · subst h
      unfold mapGet
      rw [List.find?_cons_of_pos _ (by simp)]
      rfl
    · by_cases he : p.1 = k
      · exact absurd (he ▸ List.mem_map.mpr ⟨(k, v), h, rfl⟩) hnd.1
      · unfold mapGet
        rw [List.find?_cons_of_neg _ (by simp [he])]
        exact ih hnd.2 h

theorem mapGet_eq_none_of_any_eq_false {m : CacheMap} {k : String}
    (h : m.any (fun p => p.1 == k) = false) : mapGet m k = none := by
  rw [mapGet_eq_none_iff]
  intro p hp he
  have ha : m.any (fun p => p.1 == k) = true :=
    List.any_eq_true.mpr ⟨p, hp, by simp [he]⟩
  rw [h] at ha
  exact Bool.false_ne_true ha

theorem mapSet_of_mapGet_none {m : CacheMap} {k : String} (v : CacheEntry)
    (h : mapGet m k = none) : mapSet m k v = m ++ [(k, v)] := by
  unfold mapSet
  cases hany : m.any (fun p => p.1 == k) with
  | false => simp
  | true =>
    exfalso
    rcases List.any_eq_true.mp hany with ⟨p, hp, he⟩
    rw [mapGet_eq_none_iff] at h
    exact h p hp (by simpa using he)

/-- The ordering used by the eviction sort. -/
def entryLE (a b : String × CacheEntry) : Prop :=
  a.2.timestamp ≤ b.2.timestamp

theorem insTS_length (x : String × CacheEntry) (l : CacheMap) :
    (insTS x l).length = l.length + 1 := by
  induction l with
  | nil => rfl
  | cons y ys ih =>
    unfold insTS
    by_cases h : y.2.timestamp < x.2.timestamp <;> simp [h, ih]

theorem insTS_perm (x : String × CacheEntry) (l : CacheMap) :
    List.Perm (insTS x l) (x :: l) := by
  induction l with
  | nil => rfl
  | cons y ys ih =>
    unfold insTS
    by_cases h : y.2.timestamp < x.2.timestamp
    · simp only [h, if_true]
      exact (ih.cons y).trans (List.Perm.swap x y ys)
    · simp [h]

theorem sortTS_perm (l : CacheMap) : List.Perm (sortTS l) l := by
  induction l with
  | nil => rfl
  | cons x xs ih =>
    have : sortTS (x :: xs) = insTS x (sortTS xs) := rfl
    rw [this]
    exact (insTS_perm x (sortTS xs)).trans (ih.cons x)

theorem insTS_sorted {l : CacheMap} (x : String × CacheEntry)
    (h : l.Pairwise entryLE) : (insTS x l).Pairwise entryLE := by
  induction l with
  | nil => simp [insTS, entryLE]
  | cons y ys ih =>
    rcases List.pairwise_cons.mp h with ⟨hy, hys⟩
    unfold insTS
    by_cases hc : y.2.timestamp < x.2.timestamp
    · simp only [hc, if_true]
      refine List.pairwise_cons.mpr ⟨?_, ih hys⟩
      intro b hb
      rcases List.mem_cons.mp ((insTS_perm x ys).mem_iff.mp hb) with h1 | h1
      · subst h1; exact le_of_lt hc
      · exact hy b h1
    · simp only [hc, if_false]
      refine List.pairwise_cons.mpr ⟨?_, h⟩
      intro b hb
      rcases List.mem_cons.mp hb with h1 | h1
      · subst h1; exact le_of_not_lt hc
      · exact le_trans (le_of_not_lt hc) (hy b h1)

theorem sortTS_sorted (l : CacheMap) : (sortTS l).Pairwise entryLE := by
  induction l with
  | nil => exact List.Pairwise.nil
  | cons x xs ih => exact insTS_sorted x ih

theorem insTS_append_last {y x : String × CacheEntry}
    (hle : y.2.timestamp ≤ x.2.timestamp) (l : CacheMap) :
    ∃ l', insTS y (l ++ [x]) = l' ++ [x] ∧ l'.length = l.length + 1 := by
  induction l with
  | nil =>
    refine ⟨[y], ?_, rfl⟩
    simp [insTS, not_lt_of_le hle]
  | cons z zs ih =>
    rcases ih with ⟨l'', he, hlen⟩
    unfold insTS
    by_cases hc : z.2.timestamp < y.2.timestamp
    · exact ⟨z :: l'', by simp [hc, he], by simp [hlen]⟩
    · exact ⟨y :: z :: zs, by simp [hc], by simp⟩

theorem sortTS_append_last {x : String × CacheEntry} {m0 : CacheMap}
    (h : ∀ y ∈ m0, y.2.timestamp ≤ x.2.timestamp) :
    ∃ l', sortTS (m0 ++ [x]) = l' ++ [x] ∧ l'.length = m0.length := by
  induction m0 with
  | nil => exact ⟨[], rfl, rfl⟩
  | cons a rest ih =>
    rcases ih (fun y hy => h y (List.mem_cons_of_mem a hy)) with ⟨l'', he, hlen⟩
    have : sortTS ((a :: rest) ++ [x]) = insTS a (sortTS (rest ++ [x])) := rfl
    rw [this, he]
    rcases insTS_append_last (h a (List.mem_cons_self a rest)) l'' with ⟨l', he', hlen'⟩
    exact ⟨l', he', by simp only [List.length_cons]; omega⟩

theorem foldlDelete_eq_filter (vs : List (String × CacheEntry)) (m : CacheMap) :
    vs.foldl (fun acc p => mapDelete acc p.1) m
      = m.filter (fun p => !keyMem p.1 (vs.map Prod.fst)) := by
  induction vs generalizing m with
  | nil => simp [keyMem]
  | cons v rest ih =>
    simp only [List.foldl_cons, List.map_cons]
    rw [ih]
    unfold mapDelete
    rw [List.filter_filter]
    apply List.filter_congr
    intro p _
    simp [keyMem, Bool.not_or, Bool.and_comm, bne]

theorem capacityTrim_eq {maxE : Nat} {m : CacheMap} (h : m.length > maxE) :
    capacityTrim maxE m
      = m.filter
          (fun p => !keyMem p.1 (((sortTS m).take (m.length - maxE)).map Prod.fst)) := by
  unfold capacityTrim
  rw [if_pos h, foldlDelete_eq_filter]

theorem mem_of_mem_capacityTrim {maxE : Nat} {m : CacheMap} {p : String × CacheEntry}
    (h : p ∈ capacityTrim maxE m) : p ∈ m := by
  by_cases hc : m.length > maxE
  · rw [capacityTrim_eq hc] at h
    exact (List.mem_filter.mp h).1
  · unfold capacityTrim at h
    rwa [if_neg hc] at h

theorem mem_expiryFilter {now exp : Int} {m : CacheMap} {p : String × CacheEntry} :
    p ∈ expiryFilter now exp m ↔ p ∈ m ∧ now - p.2.timestamp ≤ exp := by
  unfold expiryFilter
  rw [List.mem_filter]
  simp [not_lt]

theorem keys_nodup_filter (f : String × CacheEntry → Bool) {m : CacheMap}
    (h : (m.map Prod.fst).Nodup) : ((m.filter f).map Prod.fst).Nodup :=
  List.Nodup.sublist ((List.filter_sublist m).map Prod.fst) h

theorem keys_nodup_capacityTrim {maxE : Nat} {m : CacheMap}
    (h : (m.map Prod.fst).Nodup) : ((capacityTrim maxE m).map Prod.fst).Nodup := by
  by_cases hc : m.length > maxE
  · rw [capacityTrim_eq hc]; exact keys_nodup_filter _ h
  · unfold capacityTrim; rwa [if_neg hc]

theorem capacityTrim_perm_drop {maxE : Nat} {m : CacheMap}
    (hnd : (m.map Prod.fst).Nodup) (h : m.length > maxE) :
    List.Perm (capacityTrim maxE m) ((sortTS m).drop (m.length - maxE)) := by
  rw [capacityTrim_eq h]
  have hperm := sortTS_perm m
  have hk : ((sortTS m).map Prod.fst).Nodup := ((hperm.map Prod.fst).nodup_iff).mpr hnd
  set st := sortTS m with hst
  set k := m.length - maxE with hkdef
  set pred := fun p : String × CacheEntry => !keyMem p.1 ((st.take k).map Prod.fst)
    with hpred
  have h1 : List.Perm (m.filter pred) (st.filter pred) := (hperm.filter pred).symm
  have hvic : (st.take k).filter pred = [] := by
    apply List.filter_eq_nil_iff.mpr
    intro v hv
    simp only [hpred, Bool.not_eq_true', Bool.not_eq_false]
    exact keyMem_iff.mpr (List.mem_map.mpr ⟨v, hv, rfl⟩)
  have hrest : (st.drop k).filter pred = st.drop k := by
    apply List.filter_eq_self.mpr
    intro q hq
    have hnd2 : ((st.take k ++ st.drop k).map Prod.fst).Nodup := by
      rw [List.take_append_drop]; exact hk
    rw [List.map_append] at hnd2
    rcases List.nodup_append.mp hnd2 with ⟨_, _, hdisj⟩
    simp only [hpred, Bool.not_eq_true']
    rw [Bool.eq_false_iff]
    intro hkm
    exact hdisj (keyMem_iff.mp hkm) (List.mem_map.mpr ⟨q, hq, rfl⟩)
  have h0 : st.filter pred = (st.take k).filter pred ++ (st.drop k).filter pred := by
    rw [← List.filter_append, List.take_append_drop]
  have h2 : st.filter pred = st.drop k := by
    rw [h0, hvic, hrest, List.nil_append]
  rw [h2] at h1
  exact h1

theorem capacityTrim_length {maxE : Nat} {m : CacheMap}
    (hnd : (m.map Prod.fst).Nodup) :
    (capacityTrim maxE m).length = min m.length maxE := by
  by_cases hc : m.length > maxE
  · have hlen := (capacityTrim_perm_drop hnd hc).length_eq
    rw [hlen, List.length_drop, (sortTS_perm m).length_eq]
    omega
  · unfold capacityTrim
    rw [if_neg hc]
    omega

theorem capacityTrim_removed_le {maxE : Nat} {m : CacheMap}
    (hnd : (m.map Prod.fst).Nodup) {p q : String × CacheEntry}
    (hp : p ∈ m) (hpo : p ∉ capacityTrim maxE m) (hq : q ∈ capacityTrim maxE m) :
    p.2.timestamp ≤ q.2.timestamp := by
  by_cases hc : m.length > maxE
  · have hperm := capacityTrim_perm_drop hnd hc
    set st := sortTS m with hst
    set k := m.length - maxE with hkdef
    have hps : p ∈ st := (sortTS_perm m).mem_iff.mpr hp
    have hqrest : q ∈ st.drop k := hperm.mem_iff.mp hq
    have hps2 : p ∈ st.take k ++ st.drop k := by
      rw [List.take_append_drop]; exact hps
    have hpvic : p ∈ st.take k := by
      rcases List.mem_append.mp hps2 with h1 | h1
      · exact h1
      · exact absurd (hperm.mem_iff.mpr h1) hpo
    have hpw : List.Pairwise entryLE (st.take k ++ st.drop k) := by
      rw [List.take_append_drop]; exact sortTS_sorted m
    rcases List.pairwise_append.mp hpw with ⟨_, _, hcross⟩
    exact hcross p hpvic q hqrest
  · unfold capacityTrim at hpo
    rw [if_neg hc] at hpo
    exact absurd hp hpo

theorem capacityTrim_keeps_last {maxE : Nat} {m0 : CacheMap} {x : String × CacheEntry}
    (hnd : (((m0 ++ [x]).map Prod.fst)).Nodup)
    (hts : ∀ y ∈ m0, y.2.timestamp ≤ x.2.timestamp) (hmax : 1 ≤ maxE) :
    x ∈ capacityTrim maxE (m0 ++ [x]) := by
  have hxmem : x ∈ m0 ++ [x] := List.mem_append.mpr (Or.inr (List.mem_singleton.mpr rfl))
  by_cases hc : (m0 ++ [x]).length > maxE
  · rw [capacityTrim_eq hc]
    rcases sortTS_append_last hts with ⟨l', hs, hlen⟩
    have hksorted : ((sortTS (m0 ++ [x])).map Prod.fst).Nodup :=
      (((sortTS_perm (m0 ++ [x])).map Prod.fst).nodup_iff).mpr hnd
    rw [hs, List.map_append] at hksorted
    have hxn : x.1 ∉ l'.map Prod.fst := by
      rcases List.nodup_append.mp hksorted with ⟨_, _, hdisj⟩
      intro hin
      exact hdisj hin (by simp)
    have hkbound : (m0 ++ [x]).length - maxE ≤ l'.length := by
      rw [hlen, List.length_append]
      simp only [List.length_singleton]
      omega
    apply List.mem_filter.mpr
    refine ⟨hxmem, ?_⟩
    rw [hs, List.take_append_of_le_length hkbound]
    simp only [Bool.not_eq_true']
    rw [Bool.eq_false_iff]
    intro hkm
    rcases List.mem_map.mp (keyMem_iff.mp hkm) with ⟨v, hv, he⟩
    exact hxn (List.mem_map.mpr ⟨v, (List.take_sublist _ _).subset hv, he⟩)
  · unfold capacityTrim
    rw [if_neg hc]
    exact hxmem

/-! ## `cleanExpiredEntries` corollaries -/

theorem clean_cache_eq (now : Int) (s : DatafeedState) :
    (cleanExpiredEntries now s).cache
      = capacityTrim s.cacheConfig.maxEntries
          (expiryFilter now s.cacheConfig.expirationTime s.cache) := rfl

theorem clean_baseUrl (now : Int) (s : DatafeedState) :
    (cleanExpiredEntries now s).baseUrl = s.baseUrl := rfl

theorem clean_cacheConfig (now : Int) (s : DatafeedState) :
    (cleanExpiredEntries now s).cacheConfig = s.cacheConfig := rfl

theorem clean_mem {now : Int} {s : DatafeedState} {p : String × CacheEntry}
    (h : p ∈ (cleanExpiredEntries now s).cache) :
    p ∈ s.cache ∧ now - p.2.timestamp ≤ s.cacheConfig.expirationTime :=
  mem_expiryFilter.mp (mem_of_mem_capacityTrim (by rwa [clean_cache_eq] at h))

theorem clean_keys_nodup {now : Int} {s : DatafeedState}
    (h : (s.cache.map Prod.fst).Nodup) :
    (((cleanExpiredEntries now s).cache).map Prod.fst).Nodup := by
  rw [clean_cache_eq]
  exact keys_nodup_capacityTrim (keys_nodup_filter _ h)

/-! ## `fetchWithAuth` and `klineFetch` characterizations -/

theorem fetchWithAuth_req_url (env : AuthEnv) (url : String) :
    ∀ r ∈ (fetchWithAuth env url).requests, r.url = url := by
  intro r hr
  revert hr
  unfold fetchWithAuth
  cases htok : getAuthToken env.tokenSource with
  | none => simp
  | some tok =>
    by_cases h401 : env.resp1.status = 401
    · cases href : env.refreshResult with
      | none =>
        simp only [h401, if_true]
        intro hr
        rcases List.mem_singleton.mp hr with rfl
        rfl
      | some t2 =>
        by_cases hok : respOk env.resp2.status <;>
        · simp only [h401, if_true, hok, if_false]
          intro hr
          rcases List.mem_cons.mp hr with rfl | hr2
          · rfl
          · rcases List.mem_singleton.mp hr2 with rfl
            rfl
    · by_cases hok : respOk env.resp1.status <;>
      · simp only [h401, if_false, hok, if_true]
        intro hr
        rcases List.mem_singleton.mp hr with rfl
        rfl

theorem fetchWithAuth_single {env : AuthEnv} {url : String} {b : Resp}
    (h401 : env.resp1.status ≠ 401)
    (hok : (fetchWithAuth env url).result = .ok b) :
    (fetchWithAuth env url).requests.length = 1 := by
  cases htok : getAuthToken env.tokenSource with
  | none => simp [fetchWithAuth, htok] at hok
  | some tok =>
    by_cases hro : respOk env.resp1.status
    · simp [fetchWithAuth, htok, h401, hro]
    · simp [fetchWithAuth, htok, h401, hro] at hok

theorem kline_hit {env : AuthEnv} {now : Int} {s : DatafeedState} {sym : SymbolInfo}
    {per : Period} {f t : Int} {e : CacheEntry}
    (h : mapGet (cleanExpiredEntries now s).cache (mkCacheKey sym.ticker per f t) = some e) :
    getHistoryKLineData env now s sym per f t
      = ⟨.ok e.data, cleanExpiredEntries now s, [], 0⟩ := by
  have hcond : now - e.timestamp ≤ (cleanExpiredEntries now s).cacheConfig.expirationTime := by
    rw [clean_cacheConfig]
    exact (clean_mem (mapGet_mem h)).2
  simp only [getHistoryKLineData]
  rw [h]
  simp [hcond]

theorem kline_miss {env : AuthEnv} {now : Int} {s : DatafeedState} {sym : SymbolInfo}
    {per : Period} {f t : Int}
    (h : mapGet (cleanExpiredEntries now s).cache (mkCacheKey sym.ticker per f t) = none) :
    getHistoryKLineData env now s sym per f t
      = klineFetch env now (cleanExpiredEntries now s) sym per f t
          (mkCacheKey sym.ticker per f t) := by
  simp only [getHistoryKLineData]
  rw [h]

theorem kline_miss_of_requests_ne_nil {env : AuthEnv} {now : Int} {s : DatafeedState}
    {sym : SymbolInfo} {per : Period} {f t : Int}
    (hreq : (getHistoryKLineData env now s sym per f t).requests ≠ []) :
    mapGet (cleanExpiredEntries now s).cache (mkCacheKey sym.ticker per f t) = none := by
  cases hm : mapGet (cleanExpiredEntries now s).cache (mkCacheKey sym.ticker per f t) with
  | none => rfl
  | some e =>
    rw [kline_hit hm] at hreq
    exact absurd rfl hreq

theorem klineFetch_ok {env : AuthEnv} {now : Int} {s1 : DatafeedState} {sym : SymbolInfo}
    {per : Period} {f t : Int} {key : String} {d : List KLineData}
    (h : (klineFetch env now s1 sym per f t key).result = .ok d) :
    (klineFetch env now s1 sym per f t key).state
      = { s1 with cache := mapSet s1.cache key ⟨d, now⟩ } := by
  simp only [klineFetch] at h ⊢
  generalize hfp : fetchParse (fetchWithAuth env
      (klineUrl s1.baseUrl sym.ticker per (correctedFromMs per f t) t)).result = pr at h ⊢
  cases pr with
  | error e => simp at h
  | ok raw =>
    simp at h ⊢
    simp [h]

theorem klineFetch_requests (env : AuthEnv) (now : Int) (s1 : DatafeedState)
    (sym : SymbolInfo) (per : Period) (f t : Int) (key : String) :
    (klineFetch env now s1 sym per f t key).requests
      = (fetchWithAuth env
          (klineUrl s1.baseUrl sym.ticker per (correctedFromMs per f t) t)).requests := by
  simp only [klineFetch]
  generalize hfp : fetchParse (fetchWithAuth env
      (klineUrl s1.baseUrl sym.ticker per (correctedFromMs per f t) t)).result = pr
  cases pr with
  | error e => rfl
  | ok raw => rfl

/-! ## Calendar lemmas

`yearFromDay` is the Galois-style year extraction of ECMA-262
(`YearFromTime(t)` = the largest `y` with `TimeFromYear(y) ≤ t`); the lemmas
below establish exactly that characterization and its monotonicity, which is
what the yearly-range guard of `getHistoryKLineData` needs. -/

theorem ediv_le_ediv_add_one (a : Int) {n : Int} (hn : 0 < n) :
    (a + 1) / n ≤ a / n + 1 := by
  have h1 : (a + 1) / n ≤ (a + n) / n := Int.ediv_le_ediv hn (by omega)
  have h2 : (a + 1 * n) / n = a / n + 1 := Int.add_mul_ediv_right a 1 (by omega)
  rw [one_mul] at h2
  omega

theorem dayFromYear_succ_ge (y : Int) : dayFromYear y + 364 ≤ dayFromYear (y + 1) := by
  unfold dayFromYear
  have e4a : (y - 1969) / 4 ≤ (y + 1 - 1969) / 4 := Int.ediv_le_ediv (by norm_num) (by omega)
  have e100 : (y + 1 - 1901) / 100 ≤ (y - 1901) / 100 + 1 := by
    have := ediv_le_ediv_add_one (y - 1901) (by norm_num : (0:Int) < 100)
    omega
  have e400 : (y - 1601) / 400 ≤ (y + 1 - 1601) / 400 :=
    Int.ediv_le_ediv (by norm_num) (by omega)
  omega

theorem dayFromYear_mono {y1 y2 : Int} (h : y1 ≤ y2) :
    dayFromYear y1 ≤ dayFromYear y2 := by
  obtain ⟨k, rfl⟩ : ∃ k : Nat, y2 = y1 + k := ⟨(y2 - y1).toNat, by omega⟩
  clear h
  induction k with
  | zero => simp
  | succ n ih =>
    have hs := dayFromYear_succ_ge (y1 + n)
    have he : y1 + ((n : Int) + 1) = (y1 + n) + 1 := by ring
    push_cast
    rw [he]
    omega

theorem dayFromYear_shift (y n : Int) :
    dayFromYear (y + 400 * n) = dayFromYear y + 146097 * n := by
  unfold dayFromYear
  have h4 : (y + 400 * n - 1969) / 4 = (y - 1969) / 4 + 100 * n := by
    have he : y + 400 * n - 1969 = (y - 1969) + (100 * n) * 4 := by ring
    rw [he, Int.add_mul_ediv_right _ _ (by norm_num : (4:Int) ≠ 0)]
  have h100 : (y + 400 * n - 1901) / 100 = (y - 1901) / 100 + 4 * n := by
    have he : y + 400 * n - 1901 = (y - 1901) + (4 * n) * 100 := by ring
    rw [he, Int.add_mul_ediv_right _ _ (by norm_num : (100:Int) ≠ 0)]
  have h400 : (y + 400 * n - 1601) / 400 = (y - 1601) / 400 + n := by
    have he : y + 400 * n - 1601 = (y - 1601) + n * 400 := by ring
    rw [he, Int.add_mul_ediv_right _ _ (by norm_num : (400:Int) ≠ 0)]
  rw [h4, h100, h400]
  ring

theorem yearDays_zero : yearDays 0 = 0 := by decide

theorem dayFromYear_1970 : dayFromYear 1970 = 0 := by decide

theorem yearDays_eq (k : Nat) : yearDays k = dayFromYear (1970 + (k : Int)) := rfl

/-- The two-sided ECMA-262 characterization: `yearFromDay d` is the year whose
first day is at most `d`, while the next year starts strictly after `d`. -/
theorem yearFromDay_bounds (d : Int) :
    dayFromYear (yearFromDay d) ≤ d ∧ d < dayFromYear (yearFromDay d + 1) := by
  unfold yearFromDay
  have hr0 : 0 ≤ d % 146097 := Int.emod_nonneg d (by norm_num)
  have hr1 : d % 146097 < 146097 := Int.emod_lt_of_pos d (by norm_num)
  have hd : 146097 * (d / 146097) + d % 146097 = d := Int.ediv_add_emod d 146097
  set e := d / 146097 with he
  set r := d % 146097 with hr
  set G := Nat.findGreatest (fun k => yearDays k ≤ r) 399 with hG
  have hPG : yearDays G ≤ r := by
    have h0 : yearDays 0 ≤ r := by rw [yearDays_zero]; exact hr0
    exact Nat.findGreatest_spec (P := fun k => yearDays k ≤ r) (Nat.zero_le 399) h0
  constructor
  · have harg : (1970 : Int) + 400 * e + (G : Int) = (1970 + (G : Int)) + 400 * e := by
      ring
    rw [harg, dayFromYear_shift]
    rw [yearDays_eq] at hPG
    omega
  · by_cases hG399 : G = 399
    · have harg : (1970 : Int) + 400 * e + (G : Int) + 1 = 1970 + 400 * (e + 1) := by
        rw [hG399]; push_cast; ring
      rw [harg, dayFromYear_shift, dayFromYear_1970]
      omega
    · have hlt : G < 399 := lt_of_le_of_ne (Nat.findGreatest_le 399) hG399
      have hng : ¬ (yearDays (G + 1) ≤ r) := by
        apply Nat.findGreatest_is_greatest (P := fun k => yearDays k ≤ r) (n := 399)
        · rw [← hG]; omega
        · omega
      have hng2 : r < yearDays (G + 1) := lt_of_not_le hng
      have harg : (1970 : Int) + 400 * e + (G : Int) + 1
          = (1970 + ((G : Int) + 1)) + 400 * e := by ring
      rw [harg, dayFromYear_shift]
      rw [yearDays_eq] at hng2
      push_cast at hng2
      omega

theorem yearFromDay_mono {d1 d2 : Int} (h : d1 ≤ d2) :
    yearFromDay d1 ≤ yearFromDay d2 := by
  by_contra hc
  have h2 : yearFromDay d2 + 1 ≤ yearFromDay d1 := by omega
  have b1 := yearFromDay_bounds d1
  have b2 := yearFromDay_bounds d2
  have := dayFromYear_mono h2
  omega

theorem jsFullYear_mono {t1 t2 : Int} (h : t1 ≤ t2) :
    jsFullYear t1 ≤ jsFullYear t2 := by
  unfold jsFullYear jsDay
  exact yearFromDay_mono (Int.ediv_le_ediv (by norm_num [msPerDay]) h)

/-- The yearly-range correction never fires on a well-ordered range: for
`fromMs < toMs` the guard `getFullYear(from) > getFullYear(to) + 10` is
false, so the requested range is used as-is. -/
theorem correctedFromMs_eq_of_lt {per : Period} {fromMs toMs : Int}
    (h : fromMs < toMs) : correctedFromMs per fromMs toMs = fromMs := by
  unfold correctedFromMs
  have hy : jsFullYear fromMs ≤ jsFullYear toMs := jsFullYear_mono (le_of_lt h)
  have hcond : ¬ (per.timespan = "year" ∧ jsFullYear fromMs > jsFullYear toMs + 10) := by
    rintro ⟨-, hgt⟩
    omega
  rw [if_neg hcond]

/-! ## String lemmas for the cache-key matching of `clearCache` -/

theorem isPrefixOf_append_self (l1 l2 : List Char) :
    l1.isPrefixOf (l1 ++ l2) = true := by
  induction l1 with
  | nil => cases l2 <;> rfl
  | cons c rest ih => simp [List.isPrefixOf, ih]

theorem strStartsWith_append (pre rest : String) :
    strStartsWith (pre ++ rest) pre = true := by
  unfold strStartsWith
  rw [String.data_append]
  exact isPrefixOf_append_self _ _

theorem listContainsSeq_of_isPrefixOf {n hay : List Char} (h : n.isPrefixOf hay = true) :
    listContainsSeq n hay = true := by
  cases hay with
  | nil =>
    cases n with
    | nil => rfl
    | cons c cs => simp [List.isPrefixOf] at h
  | cons c rest => simp [listContainsSeq, h]

theorem listContainsSeq_sandwich (n a b : List Char) :
    listContainsSeq n (a ++ (n ++ b)) = true := by
  induction a with
  | nil =>
    simp only [List.nil_append]
    exact listContainsSeq_of_isPrefixOf (isPrefixOf_append_self _ _)
  | cons c a' ih => simp [listContainsSeq, ih]

theorem strIncludes_sandwich (a n b : String) :
    strIncludes (a ++ (n ++ b)) n = true := by
  unfold strIncludes
  rw [String.data_append, String.data_append]
  exact listContainsSeq_sandwich _ _ _

theorem mkCacheKey_decomp (ticker : String) (per : Period) (f t : Int) :
    mkCacheKey ticker per f t
      = (ticker ++ "-") ++ ((toString per.multiplier ++ per.timespan ++ "-")
          ++ (toString f ++ "-" ++ toString t)) := by
  unfold mkCacheKey
  simp [String.append_assoc]

theorem mkCacheKey_startsWith (ticker : String) (per : Period) (f t : Int) :
    strStartsWith (mkCacheKey ticker per f t) (ticker ++ "-") = true := by
  rw [mkCacheKey_decomp]
  exact strStartsWith_append _ _

theorem mkCacheKey_includes_timeframe (ticker : String) (per : Period) (f t : Int) :
    strIncludes (mkCacheKey ticker per f t)
      (toString per.multiplier ++ per.timespan ++ "-") = true := by
  rw [mkCacheKey_decomp]
  exact strIncludes_sandwich _ _ _

/-! ## Remaining `klineFetch` helpers -/

theorem klineFetch_ok_fetch {env : AuthEnv} {now : Int} {s1 : DatafeedState}
    {sym : SymbolInfo} {per : Period} {f t : Int} {key : String} {d : List KLineData}
    (h : (klineFetch env now s1 sym per f t key).result = .ok d) :
    ∃ body, (fetchWithAuth env
      (klineUrl s1.baseUrl sym.ticker per (correctedFromMs per f t) t)).result
        = .ok body := by
  simp only [klineFetch] at h
  cases hfo : (fetchWithAuth env
      (klineUrl s1.baseUrl sym.ticker per (correctedFromMs per f t) t)).result with
  | ok body => exact ⟨body, rfl⟩
  | error e =>
    rw [hfo] at h
    simp [fetchParse] at h

theorem klineFetch_auth_required {env : AuthEnv} {now : Int} {s1 : DatafeedState}
    {sym : SymbolInfo} {per : Period} {f t : Int} {key : String}
    (htok : getAuthToken env.tokenSource = none) :
    klineFetch env now s1 sym per f t key
      = ⟨.error .authenticationRequired, s1, [], 0⟩ := by
  simp only [klineFetch]
  have hf : fetchWithAuth env
      (klineUrl s1.baseUrl sym.ticker per (correctedFromMs per f t) t)
        = ⟨.error .authenticationRequired, [], 0⟩ := by
    unfold fetchWithAuth
    rw [htok]
  rw [hf]
  rfl

/-! ## The specification's unit-code table -/

/-- The timeframe unit-code table exactly as the specification words it
(`minute/hour/day/week/month/year` to `m/h/d/w/M/Y`, month and year
upper-cased); compared against the source's `timespanCode`. -/
def specUnitCode : String → Option String
  | "minute" => some "m"
  | "hour" => some "h"
  | "day" => some "d"
  | "week" => some "w"
  | "month" => some "M"
  | "year" => some "Y"
  | _ => none

theorem getTimeframeCode_spec {tsp c : String} (h : specUnitCode tsp = some c)
    (m : Int) : getTimeframeCode m tsp = toString m ++ c := by
  unfold specUnitCode at h
  split at h <;> simp_all [getTimeframeCode, timespanCode]

/-! ## Shared concrete fixtures for claim instances -/

def exSym : SymbolInfo := ⟨"ES", none, none, none, none, none⟩

def exSym2 : SymbolInfo := ⟨"NQ", none, none, none, none, none⟩

def exPer : Period := ⟨1, "minute"⟩

def exPer5 : Period := ⟨5, "minute"⟩

def exRow : WireItem := .tuple [1, 2, 3, 4, 5, 6]

def exBody : Resp := .bareArray [exRow]

def exData : List KLineData :=
  [⟨some 1000, some 2, some 3, some 4, some 5, some 6⟩]

def exEnvOk : AuthEnv :=
  ⟨.sessionWith "tok", none, ⟨200, exBody⟩, ⟨200, .bareArray []⟩⟩

def exEnvNoTok : AuthEnv :=
  ⟨.sessionAbsent, none, ⟨200, exBody⟩, ⟨200, exBody⟩⟩

def exEnv401Ok : AuthEnv :=
  ⟨.sessionWith "tok", some "tok2", ⟨401, .obj none none none none⟩, ⟨200, exBody⟩⟩

def exEnv401Retry500 : AuthEnv :=
  ⟨.sessionWith "tok", some "tok2", ⟨401, .obj none none none none⟩, ⟨500, .bareArray []⟩⟩

def exState : DatafeedState := ⟨"http://b", ⟨1, 300000⟩, [], none⟩

def exState100 : DatafeedState := ⟨"http://b", ⟨100, 300000⟩, [], none⟩

def exInst : Instrument :=
  ⟨"NQ", some "Nasdaq 100 E-mini", some "NQ", some "CME", some "FUTURES", some "FUT"⟩

def exC5State : DatafeedState :=
  ⟨"b", ⟨100, 300000⟩, [("ES-15minute-0-1", ⟨[], 0⟩), ("ES-5minute-0-1", ⟨[], 0⟩)], none⟩

/-! ## Claim C3 -/

/-- C3, counterexample: with a 401 first response, a successful refresh and a
retried request that fails with HTTP 500, `fetchWithAuth` throws the
HTTP-status error (`RemoteRequestFailed{500}`), not `AuthenticationFailed` as
the claim states. -/
theorem c3_counterexample :
    (fetchWithAuth exEnv401Retry500 "u").result = .error (.httpError 500)
    ∧ ¬ (fetchWithAuth exEnv401Retry500 "u").result = .error .authenticationFailed := by
  decide

/-- C3 as amended: a 401 first response triggers exactly one refresh attempt;
a failed refresh yields `AuthenticationFailed` with no retry request; a
successful refresh yields exactly one retried request carrying the refreshed
token, whose non-ok status yields the HTTP-status error (not
`AuthenticationFailed`); no second refresh or further retry occurs. -/
theorem c3_single_refresh_then_status_error (env : AuthEnv) (url tok : String)
    (htok : getAuthToken env.tokenSource = some tok)
    (h401 : env.resp1.status = 401) :
    (fetchWithAuth env url).refreshes = 1
    ∧ (env.refreshResult = none →
        (fetchWithAuth env url).result = .error .authenticationFailed
        ∧ (fetchWithAuth env url).requests = [⟨url, tok⟩])
    ∧ (∀ t2, env.refreshResult = some t2 →
        (fetchWithAuth env url).requests = [⟨url, tok⟩, ⟨url, t2⟩]
        ∧ (respOk env.resp2.status = true →
            (fetchWithAuth env url).result = .ok env.resp2.body)
        ∧ (respOk env.resp2.status = false →
            (fetchWithAuth env url).result = .error (.httpError env.resp2.status))) := by
  refine ⟨?_, ?_, ?_⟩
  · cases href : env.refreshResult with
    | none => simp [fetchWithAuth, htok, h401, href]
    | some t2 =>
      by_cases hro : respOk env.resp2.status <;>
        simp [fetchWithAuth, htok, h401, href, hro]
  · intro href
    constructor <;> simp [fetchWithAuth, htok, h401, href]
  · intro t2 href
    refine ⟨?_, ?_, ?_⟩
    · by_cases hro : respOk env.resp2.status <;>
        simp [fetchWithAuth, htok, h401, href, hro]
    · intro hro; simp [fetchWithAuth, htok, h401, href, hro]
    · intro hro; simp [fetchWithAuth, htok, h401, href, hro]

/-- C3 witness: the amended theorem applied to a concrete
401-refresh-retry-success environment. -/
theorem c3_witness :
    (fetchWithAuth exEnv401Ok "u").refreshes = 1
    ∧ (fetchWithAuth exEnv401Ok "u").requests = [⟨"u", "tok"⟩, ⟨"u", "tok2"⟩]
    ∧ (fetchWithAuth exEnv401Ok "u").result = .ok exBody := by
  have h := c3_single_refresh_then_status_error exEnv401Ok "u" "tok" (by decide) rfl
  rcases h with ⟨h1, -, h3⟩
  rcases h3 "tok2" rfl with ⟨hreq, hok, -⟩
  exact ⟨h1, hreq, hok (by decide)⟩

/-! ## Claim C4 -/

/-- C4: on a cache miss, when the auth provider yields no token (absent
session, or the token lookup itself throwing — both map to a `none` token),
the call fails with `AuthenticationRequired` and no HTTP request is made. -/
theorem c4_authentication_required (env : AuthEnv) (now : Int) (s : DatafeedState)
    (sym : SymbolInfo) (per : Period) (f t : Int)
    (hmiss : mapGet (cleanExpiredEntries now s).cache (mkCacheKey sym.ticker per f t) = none)
    (htok : getAuthToken env.tokenSource = none) :
    (getHistoryKLineData env now s sym per f t).result = .error .authenticationRequired
    ∧ (getHistoryKLineData env now s sym per f t).requests = []
    ∧ getAuthToken .sessionAbsent = none
    ∧ getAuthToken .lookupError = none := by
  rw [kline_miss hmiss, klineFetch_auth_required htok]
  exact ⟨rfl, rfl, rfl, rfl⟩

/-- C4 witness: a concrete cache-miss call with an absent session. -/
theorem c4_witness :
    (getHistoryKLineData exEnvNoTok 0 exState exSym exPer 0 1).result
        = .error .authenticationRequired
    ∧ (getHistoryKLineData exEnvNoTok 0 exState exSym exPer 0 1).requests = [] := by
  have h := c4_authentication_required exEnvNoTok 0 exState exSym exPer 0 1
    (by decide) (by decide)
  exact ⟨h.1, h.2.1⟩

/-! ## Claim C6 -/

/-- C6, counterexample: at wire timestamp `0` the two shapes disagree — the
tuple row normalizes to timestamp `0`, while the named-field row's
`item.unix_time || item.timestamp` treats `0` as falsy, falls back to the
absent `timestamp` property and produces `NaN`. -/
theorem c6_counterexample :
    ¬ normalizeItem (.tuple [0, 2, 3, 4, 5, 6])
      = normalizeItem (.named (some 0) none (some 2) (some 3) (some 4)
          (some 5) (some 6)) := by
  decide

/-- C6 as amended: a legacy tuple row and a named-field row carrying the same
values normalize to identical OHLCV records (wire timestamp scaled to epoch
milliseconds) whenever the timestamp value is nonzero; at zero the named
shape's falsy-`0` fallback diverges. -/
theorem c6_normalize_agree (ts o h l c v : Int) (hts : ts ≠ 0) :
    normalizeItem (.tuple [ts, o, h, l, c, v])
      = normalizeItem (.named (some ts) none (some o) (some h) (some l)
          (some c) (some v)) := by
  simp [normalizeItem, jsOr, hts]

/-- C6 witness: the amended theorem at a concrete nonzero-timestamp row. -/
theorem c6_witness :
    normalizeItem (.tuple [1, 2, 3, 4, 5, 6])
      = normalizeItem (.named (some 1) none (some 2) (some 3) (some 4)
          (some 5) (some 6)) :=
  c6_normalize_agree 1 2 3 4 5 6 (by decide)

/-! ## Claim C7 -/

/-- C7: the series is extracted by probing envelopes in the fixed priority
order bare top-level array, then `data`, then `results`, then `ohlcv`, then
`values` (first array-valued property wins); when none matches, the call
fails with `MalformedResponse` (`invalidDataFormat`) and the cache is left
exactly as the pre-fetch cleaning produced it — nothing is inserted. -/
theorem c7_envelope_priority :
    (∀ l, extractRawData (.bareArray l) = some l)
    ∧ (∀ l r o v, extractRawData (.obj (some (.arr l)) r o v) = some l)
    ∧ (∀ d l o v, fieldArray d = none →
        extractRawData (.obj d (some (.arr l)) o v) = some l)
    ∧ (∀ d r l v, fieldArray d = none → fieldArray r = none →
        extractRawData (.obj d r (some (.arr l)) v) = some l)
    ∧ (∀ d r o l, fieldArray d = none → fieldArray r = none → fieldArray o = none →
        extractRawData (.obj d r o (some (.arr l))) = some l)
    ∧ (∀ d r o v, fieldArray d = none → fieldArray r = none → fieldArray o = none →
        fieldArray v = none → extractRawData (.obj d r o v) = none)
    ∧ (∀ env now s sym per f t body,
        mapGet (cleanExpiredEntries now s).cache (mkCacheKey sym.ticker per f t) = none →
        (fetchWithAuth env (klineUrl s.baseUrl sym.ticker per
            (correctedFromMs per f t) t)).result = .ok body →
        extractRawData body = none →
        (getHistoryKLineData env now s sym per f t).result = .error .invalidDataFormat
        ∧ (getHistoryKLineData env now s sym per f t).state
            = cleanExpiredEntries now s) := by
  refine ⟨fun l => rfl, fun l r o v => rfl, ?_, ?_, ?_, ?_, ?_⟩
  · intro d l o v hd
    simp only [extractRawData]
    rw [hd]
    rfl
  · intro d r l v hd hr
    simp only [extractRawData]
    rw [hd, hr]
    rfl
  · intro d r o l hd hr ho
    simp only [extractRawData]
    rw [hd, hr, ho]
    rfl
  · intro d r o v hd hr ho hv
    simp only [extractRawData]
    rw [hd, hr, ho, hv]
  · intro env now s sym per f t body hmiss hfo hex
    rw [kline_miss hmiss]
    simp only [klineFetch]
    rw [clean_baseUrl]
    have hparse : fetchParse (fetchWithAuth env (klineUrl s.baseUrl sym.ticker per
        (correctedFromMs per f t) t)).result = .error .invalidDataFormat := by
      rw [hfo]
      simp [fetchParse, hex]
    rw [hparse]
    exact ⟨rfl, rfl⟩

/-- C7 witness: the priority chain applied to a concrete `data` envelope with
no bare array. -/
theorem c7_witness :
    extractRawData (.obj none (some (.arr [exRow])) none none) = some [exRow] :=
  c7_envelope_priority.2.2.1 none [exRow] none none rfl

/-! ## Claim C9 -/

/-- C9: when the catalog fetch fails, a previously fetched catalog held in
memory — even one past the 5-minute expiry — is returned instead of failing;
the empty fallback is produced only when no catalog was ever fetched; and with
a prior catalog in memory the result is always an actually-fetched catalog. -/
theorem c9_catalog_fallback (now : Int) (s : DatafeedState) :
    (∀ insts ts, s.instrumentsCache = some ⟨insts, ts⟩ →
        (getInstruments (.error ()) now s).1 = insts)
    ∧ (s.instrumentsCache = none → (getInstruments (.error ()) now s).1 = [])
    ∧ (∀ insts ts api, s.instrumentsCache = some ⟨insts, ts⟩ →
        (getInstruments api now s).1 = insts
        ∨ ∃ resp, api = .ok resp ∧ (getInstruments api now s).1 = resp.instruments) := by
  refine ⟨?_, ?_, ?_⟩
  · intro insts ts hc
    unfold getInstruments
    rw [hc]
    by_cases hv : now - ts < instrumentsCacheExpiry
    · simp [hv]
    · simp [hv]
  · intro hc
    unfold getInstruments
    rw [hc]
  · intro insts ts api hc
    unfold getInstruments
    rw [hc]
    by_cases hv : now - ts < instrumentsCacheExpiry
    · left; simp [hv]
    · cases api with
      | error u => left; simp [hv]
      | ok resp => right; exact ⟨resp, rfl, by simp [hv]⟩

def exC9State : DatafeedState := ⟨"b", ⟨100, 300000⟩, [], some ⟨[exInst], 0⟩⟩

/-- C9 witness: a failed catalog fetch with a stale (well past 5 minutes)
catalog in memory still returns that catalog. -/
theorem c9_witness :
    (getInstruments (.error ()) 1000000000 exC9State).1 = [exInst]
    ∧ instrumentsCacheExpiry ≤ 1000000000 - 0 := by
  have h := (c9_catalog_fallback 1000000000 exC9State).1 [exInst] 0 rfl
  exact ⟨h, by decide⟩

/-! ## Claim C10 -/

/-- C10, counterexample: with a nonempty catalog and a search term matching
no instrument, `searchSymbols` returns the empty list — it is not true that
every input yields either instruments or the hardcoded ES fallback. -/
theorem c10_counterexample :
    (searchSymbols (.ok ⟨1, [exInst], "x"⟩) 0 exState (some "zzz")).1 = [] := by
  decide

/-- C10 as amended: `searchSymbols` never throws (it is a total function of
its oracles), and whenever the instrument list it obtains is empty — catalog
fetch failed with no prior catalog, or the catalog itself is empty — it
returns the single hardcoded ES descriptor; a non-matching search over a
nonempty catalog, however, yields an empty list. -/
theorem c10_es_fallback (api : Except Unit InstrumentsResponse) (now : Int)
    (s : DatafeedState) (search : Option String)
    (h : (getInstruments api now s).1 = []) :
    (searchSymbols api now s search).1 = [esFallbackSymbol] := by
  simp [searchSymbols, h]

/-- C10 witness: the ES fallback on a failed fetch with no prior catalog. -/
theorem c10_witness :
    (searchSymbols (.error ()) 0 exState none).1 = [esFallbackSymbol] :=
  c10_es_fallback (.error ()) 0 exState none rfl

/-! ## Claim C5 -/

/-- C5, counterexample: `clearCache('ES', 5 minute)` also deletes the
15-minute entry of the same instrument, because the timeframe is matched with
`key.includes('5minute-')` and `"ES-15minute-0-1"` contains that substring;
the claim's "removes exactly the entries matching both instrument and
timeframe" is false. -/
theorem c5_counterexample :
    mkCacheKey "ES" ⟨15, "minute"⟩ 0 1 = "ES-15minute-0-1"
    ∧ mkCacheKey "ES" ⟨5, "minute"⟩ 0 1 = "ES-5minute-0-1"
    ∧ (clearCache exC5State (some exSym) (some ⟨5, "minute"⟩)).cache = [] := by
  decide

/-- C5 as amended: `clearCache()` empties the store; `clearCache(instrument)`
removes exactly the entries whose key starts with `"{instrument}-"` (which
includes every entry of that exact instrument); `clearCache(instrument,
timeframe)` removes exactly the entries whose key starts with that prefix and
contains `"{multiplier}{timespan}-"` as a substring — a superset of the
exact-timeframe matches, e.g. clearing 5-minute also clears 15-minute keys of
that instrument; all other entries are untouched, and the operation is
idempotent (clearing absent keys is not an error). -/
theorem c5_clear_scoping (s : DatafeedState) (sym : SymbolInfo) (per : Period) :
    ((clearCache s none none).cache = [])
    ∧ (∀ q, q ∈ (clearCache s (some sym) none).cache
        ↔ q ∈ s.cache ∧ strStartsWith q.1 (sym.ticker ++ "-") = false)
    ∧ (∀ q, q ∈ (clearCache s (some sym) (some per)).cache
        ↔ q ∈ s.cache
          ∧ (strStartsWith q.1 (sym.ticker ++ "-")
              && strIncludes q.1 (toString per.multiplier ++ per.timespan ++ "-"))
            = false)
    ∧ (∀ f t, strStartsWith (mkCacheKey sym.ticker per f t) (sym.ticker ++ "-") = true
        ∧ strIncludes (mkCacheKey sym.ticker per f t)
            (toString per.multiplier ++ per.timespan ++ "-") = true)
    ∧ (∀ a b, clearCache (clearCache s a b) a b = clearCache s a b) := by
  have hfilter : ∀ (p : String × CacheEntry → Bool) (l : CacheMap),
      (l.filter p).filter p = l.filter p := by
    intro p l
    rw [List.filter_filter]
    apply List.filter_congr
    intro a _
    exact Bool.and_self _
  refine ⟨?_, ?_, ?_, ?_, ?_⟩
  · simp [clearCache]
  · intro q
    simp [clearCache, List.mem_filter]
  · intro q
    simp [clearCache, List.mem_filter]
    intro _
    cases ha : strStartsWith q.1 (sym.ticker ++ "-") <;>
      cases hb : strIncludes q.1 (toString per.multiplier ++ per.timespan ++ "-") <;>
        simp
  · intro f t
    exact ⟨mkCacheKey_startsWith sym.ticker per f t,
      mkCacheKey_includes_timeframe sym.ticker per f t⟩
  · intro a b
    cases a with
    | none =>
      cases b with
      | none => simp [clearCache]
      | some p => simp [clearCache, hfilter]
    | some sy =>
      cases b with
      | none => simp [clearCache, hfilter]
      | some p => simp [clearCache, hfilter]

/-- C5 witness: the amended theorem at a concrete instrument and period;
the 5-minute clear keeps nothing of `exC5State` and exact matches are always
covered by the string predicates. -/
theorem c5_witness :
    (strStartsWith (mkCacheKey "ES" exPer5 0 1) ("ES" ++ "-") = true
      ∧ strIncludes (mkCacheKey "ES" exPer5 0 1)
          (toString exPer5.multiplier ++ exPer5.timespan ++ "-") = true)
    ∧ (clearCache (clearCache exC5State (some exSym) (some exPer5))
        (some exSym) (some exPer5)
          = clearCache exC5State (some exSym) (some exPer5)) := by
  have h := c5_clear_scoping exC5State exSym exPer5
  exact ⟨h.2.2.2.1 0 1, h.2.2.2.2 (some exSym) (some exPer5)⟩

/-! ## Claim C2 -/

/-- C2, counterexample: with `maxEntries = 1`, two successful fetches of
distinct keys leave 2 entries in the store — insertion performs no eviction
(cleaning only runs at the start of the next call), so "inserting
maxEntries + 1 distinct unexpired keys leaves exactly maxEntries entries" is
false. -/
theorem c2_counterexample :
    exState.cacheConfig.maxEntries = 1
    ∧ (getHistoryKLineData exEnvOk 0 exState exSym exPer 0 1).result = .ok exData
    ∧ (getHistoryKLineData exEnvOk 0
        (getHistoryKLineData exEnvOk 0 exState exSym exPer 0 1).state
          exSym2 exPer 0 1).result = .ok exData
    ∧ (getHistoryKLineData exEnvOk 0
        (getHistoryKLineData exEnvOk 0 exState exSym exPer 0 1).state
          exSym2 exPer 0 1).state.cache.length = 2 := by
  decide

/-- C2 as amended: eviction runs at the start of every `fetchSeries` call,
before the cache lookup, not after insertion.  Whenever the cleaning step
runs it removes every entry with `now - storedAt > expirationWindow`, trims
the store to `min(survivors, maxEntries)` entries (so at most `maxEntries`),
and evicts oldest `storedAt` first; but a successful cache-miss fetch appends
its entry with no further eviction, so the store can briefly hold
`maxEntries + 1` entries until the next call's cleaning step. -/
theorem c2_eviction_before_lookup (s : DatafeedState) (now : Int)
    (hnd : (s.cache.map Prod.fst).Nodup) :
    (∀ p ∈ (cleanExpiredEntries now s).cache,
        now - p.2.timestamp ≤ s.cacheConfig.expirationTime)
    ∧ (cleanExpiredEntries now s).cache.length
        = min (expiryFilter now s.cacheConfig.expirationTime s.cache).length
            s.cacheConfig.maxEntries
    ∧ (∀ p ∈ expiryFilter now s.cacheConfig.expirationTime s.cache,
        p ∉ (cleanExpiredEntries now s).cache →
        ∀ q ∈ (cleanExpiredEntries now s).cache, p.2.timestamp ≤ q.2.timestamp)
    ∧ (∀ env sym per f t d,
        mapGet (cleanExpiredEntries now s).cache (mkCacheKey sym.ticker per f t) = none →
        (getHistoryKLineData env now s sym per f t).result = .ok d →
        (getHistoryKLineData env now s sym per f t).state.cache
          = (cleanExpiredEntries now s).cache
              ++ [(mkCacheKey sym.ticker per f t, ⟨d, now⟩)]) := by
  have hndf : ((expiryFilter now s.cacheConfig.expirationTime s.cache).map
      Prod.fst).Nodup := keys_nodup_filter _ hnd
  refine ⟨?_, ?_, ?_, ?_⟩
  · intro p hp
    exact (clean_mem hp).2
  · rw [clean_cache_eq]
    exact capacityTrim_length hndf
  · intro p hp hpo q hq
    rw [clean_cache_eq] at hpo hq
    exact capacityTrim_removed_le hndf hp hpo hq
  · intro env sym per f t d hmiss hok
    rw [kline_miss hmiss] at hok ⊢
    rw [klineFetch_ok hok]
    show mapSet (cleanExpiredEntries now s).cache _ _ = _
    exact mapSet_of_mapGet_none _ hmiss

/-- C2 witness: the cleaning step of a concrete call leaves
`min(survivors, maxEntries)` entries. -/
theorem c2_witness :
    (cleanExpiredEntries 400000 exC5State).cache.length
      = min (expiryFilter 400000 exC5State.cacheConfig.expirationTime
          exC5State.cache).length exC5State.cacheConfig.maxEntries :=
  (c2_eviction_before_lookup exC5State 400000 (by decide)).2.1

/-! ## Claim C8 -/

/-- C8: on any range with `rangeStart < rangeEnd` and a timeframe unit of the
specification's table, every HTTP request the call issues (none on a cache
hit; the retried request included on the 401 path) targets the requested
range: `start_date`/`end_date` are the UTC calendar dates of
`rangeStart`/`rangeEnd` (the yearly-range correction cannot fire on an
ordered range) and the `timeframe` parameter is
`"{multiplier}{unitCode}"` with unit codes m, h, d, w, M, Y. -/
theorem c8_request_url (env : AuthEnv) (now : Int) (s : DatafeedState)
    (sym : SymbolInfo) (per : Period) (f t : Int) (c : String)
    (hlt : f < t) (hcode : specUnitCode per.timespan = some c) :
    ∀ r ∈ (getHistoryKLineData env now s sym per f t).requests,
      r.url = s.baseUrl ++ "/api/v1/ohlcv/data?symbol=" ++ sym.ticker
        ++ "&start_date=" ++ isoDateUTC f ++ "&end_date=" ++ isoDateUTC t
        ++ "&timeframe=" ++ (toString per.multiplier ++ c)
        ++ "&source_resolution=1Y" := by
  intro r hr
  cases hm : mapGet (cleanExpiredEntries now s).cache (mkCacheKey sym.ticker per f t) with
  | some e =>
    rw [kline_hit hm] at hr
    simp at hr
  | none =>
    rw [kline_miss hm, klineFetch_requests] at hr
    have hu := fetchWithAuth_req_url env _ r hr
    rw [hu, correctedFromMs_eq_of_lt hlt, clean_baseUrl]
    unfold klineUrl
    rw [getTimeframeCode_spec hcode]

set_option maxRecDepth 8000 in
/-- C8 witness: a concrete one-day request for a 5-minute timeframe produces
exactly the URL the claim describes. -/
theorem c8_witness :
    (getHistoryKLineData exEnvOk 0 exState exSym exPer5 0 86400000).requests.map
        Request.url
      = ["http://b/api/v1/ohlcv/data?symbol=ES&start_date=1970-01-01&end_date=1970-01-02&timeframe=5m&source_resolution=1Y"] := by
  have h := c8_request_url exEnvOk 0 exState exSym exPer5 0 86400000 "m"
    (by decide) rfl
  have e : (getHistoryKLineData exEnvOk 0 exState exSym exPer5 0 86400000).requests
      = [⟨"http://b/api/v1/ohlcv/data?symbol=ES&start_date=1970-01-01&end_date=1970-01-02&timeframe=5m&source_resolution=1Y", "tok"⟩] := by
    decide
  have hm : (⟨"http://b/api/v1/ohlcv/data?symbol=ES&start_date=1970-01-01&end_date=1970-01-02&timeframe=5m&source_resolution=1Y", "tok"⟩ : Request)
      ∈ (getHistoryKLineData exEnvOk 0 exState exSym exPer5 0 86400000).requests := by
    rw [e]
    exact List.mem_singleton.mpr rfl
  have hu := h _ hm
  rw [e, List.map_cons, List.map_nil, hu]
  decide

/-! ## Claim C1 -/

set_option maxRecDepth 8000 in
/-- C1, counterexample: when the first call's response is a 401 followed by a
successful refresh and a successful retry, the pair of identical calls issues
two HTTP requests to the OHLCV endpoint, not exactly one, even though the
second call is a cache hit within the expiration window. -/
theorem c1_counterexample :
    (getHistoryKLineData exEnv401Ok 0 exState100 exSym exPer 0 1).result = .ok exData
    ∧ (1000 : Int) - 0 ≤ exState100.cacheConfig.expirationTime
    ∧ (getHistoryKLineData exEnv401Ok 1000
        (getHistoryKLineData exEnv401Ok 0 exState100 exSym exPer 0 1).state
          exSym exPer 0 1).result = .ok exData
    ∧ (getHistoryKLineData exEnv401Ok 0 exState100 exSym exPer 0 1).requests.length
        + (getHistoryKLineData exEnv401Ok 1000
            (getHistoryKLineData exEnv401Ok 0 exState100 exSym exPer 0 1).state
              exSym exPer 0 1).requests.length = 2 := by
  decide

/-- C1 as amended: after a fetchSeries call that misses the cache, fetches
successfully and inserts, a second call with identical arguments within the
expiration window of the insertion issues no HTTP request and returns the
stored series; in particular, when the first call's response was not a 401,
exactly one HTTP request is made across the two calls (the 401-refresh path
issues two).  The state hypotheses say the prior cache is a well-formed map
whose entries were inserted no later than `now1`. -/
theorem c1_second_call_cached
    (env1 env2 : AuthEnv) (s0 : DatafeedState) (now1 now2 : Int)
    (sym : SymbolInfo) (per : Period) (f t : Int) (d : List KLineData)
    (hnd : (s0.cache.map Prod.fst).Nodup)
    (hts : ∀ p ∈ s0.cache, p.2.timestamp ≤ now1)
    (hmax : 1 ≤ s0.cacheConfig.maxEntries)
    (h1 : (getHistoryKLineData env1 now1 s0 sym per f t).result = .ok d)
    (hreq : (getHistoryKLineData env1 now1 s0 sym per f t).requests ≠ [])
    (hwin : now2 - now1 ≤ s0.cacheConfig.expirationTime) :
    (getHistoryKLineData env2 now2
        (getHistoryKLineData env1 now1 s0 sym per f t).state sym per f t).requests = []
    ∧ (getHistoryKLineData env2 now2
        (getHistoryKLineData env1 now1 s0 sym per f t).state sym per f t).result = .ok d
    ∧ (env1.resp1.status ≠ 401 →
        (getHistoryKLineData env1 now1 s0 sym per f t).requests.length = 1) := by
  have hmiss : mapGet (cleanExpiredEntries now1 s0).cache
      (mkCacheKey sym.ticker per f t) = none :=
    kline_miss_of_requests_ne_nil hreq
  have hcall1 : getHistoryKLineData env1 now1 s0 sym per f t
      = klineFetch env1 now1 (cleanExpiredEntries now1 s0) sym per f t
          (mkCacheKey sym.ticker per f t) := kline_miss hmiss
  have hres1 : (klineFetch env1 now1 (cleanExpiredEntries now1 s0) sym per f t
      (mkCacheKey sym.ticker per f t)).result = .ok d := by
    rw [← hcall1]; exact h1
  have hstate1 := klineFetch_ok hres1
  have happend : mapSet (cleanExpiredEntries now1 s0).cache
      (mkCacheKey sym.ticker per f t) ⟨d, now1⟩
        = (cleanExpiredEntries now1 s0).cache
            ++ [(mkCacheKey sym.ticker per f t, ⟨d, now1⟩)] :=
    mapSet_of_mapGet_none _ hmiss
  have hs1cache : (getHistoryKLineData env1 now1 s0 sym per f t).state.cache
      = (cleanExpiredEntries now1 s0).cache
          ++ [(mkCacheKey sym.ticker per f t, ⟨d, now1⟩)] := by
    rw [hcall1, hstate1]
    exact happend
  have hs1conf : (getHistoryKLineData env1 now1 s0 sym per f t).state.cacheConfig
      = s0.cacheConfig := by
    rw [hcall1, hstate1]
    rfl
  have hndc : ((cleanExpiredEntries now1 s0).cache.map Prod.fst).Nodup :=
    clean_keys_nodup hnd
  have hkey_not : mkCacheKey sym.ticker per f t
      ∉ (cleanExpiredEntries now1 s0).cache.map Prod.fst := by
    intro hk
    rcases List.mem_map.mp hk with ⟨p, hp, he⟩
    have hpm : (p.1, p.2) ∈ (cleanExpiredEntries now1 s0).cache := by
      rw [Prod.mk.eta]; exact hp
    rw [he] at hpm
    have h3 := mapGet_eq_some_of_mem hndc hpm
    rw [hmiss] at h3
    cases h3
  have hnds1 : ((getHistoryKLineData env1 now1 s0 sym per f t).state.cache.map
      Prod.fst).Nodup := by
    rw [hs1cache, List.map_append]
    refine List.Nodup.append hndc (List.nodup_singleton _) ?_
    intro a ha hb
    simp at hb
    subst hb
    exact hkey_not ha
  have hts1 : ∀ p ∈ (cleanExpiredEntries now1 s0).cache, p.2.timestamp ≤ now1 :=
    fun p hp => hts p (clean_mem hp).1
  have hno : ¬ (now2 - now1 > s0.cacheConfig.expirationTime) := not_lt.mpr hwin
  have hsplit : expiryFilter now2
      (getHistoryKLineData env1 now1 s0 sym per f t).state.cacheConfig.expirationTime
      (getHistoryKLineData env1 now1 s0 sym per f t).state.cache
        = expiryFilter now2 s0.cacheConfig.expirationTime
            (cleanExpiredEntries now1 s0).cache
          ++ [(mkCacheKey sym.ticker per f t, ⟨d, now1⟩)] := by
    rw [hs1cache, hs1conf]
    unfold expiryFilter
    rw [List.filter_append]
    congr 1
    simp [hno]
  have hxmem : (mkCacheKey sym.ticker per f t, (⟨d, now1⟩ : CacheEntry))
      ∈ (cleanExpiredEntries now2
          (getHistoryKLineData env1 now1 s0 sym per f t).state).cache := by
    rw [clean_cache_eq, hsplit]
    apply capacityTrim_keeps_last
    · rw [List.map_append]
      refine List.Nodup.append (keys_nodup_filter _ hndc) (List.nodup_singleton _) ?_
      intro a ha hb
      simp at hb
      subst hb
      rcases List.mem_map.mp ha with ⟨p, hp, he⟩
      exact hkey_not (List.mem_map.mpr ⟨p, (mem_expiryFilter.mp hp).1, he⟩)
    · intro y hy
      exact hts1 y (mem_expiryFilter.mp hy).1
    · rw [hs1conf]
      exact hmax
  have hget2 : mapGet (cleanExpiredEntries now2
      (getHistoryKLineData env1 now1 s0 sym per f t).state).cache
        (mkCacheKey sym.ticker per f t) = some ⟨d, now1⟩ :=
    mapGet_eq_some_of_mem (clean_keys_nodup hnds1) hxmem
  have hfinal := @kline_hit env2 now2
    ((getHistoryKLineData env1 now1 s0 sym per f t).state) sym per f t ⟨d, now1⟩ hget2
  refine ⟨?_, ?_, ?_⟩
  · rw [hfinal]
  · rw [hfinal]
  · intro h401
    rcases klineFetch_ok_fetch hres1 with ⟨body, hfo⟩
    have hlen := fetchWithAuth_single h401 hfo
    rw [hcall1, klineFetch_requests]
    exact hlen

set_option maxRecDepth 8000 in
/-- C1 witness: a concrete miss-then-hit pair — the first call issues one
request (no 401), the second issues none and returns the stored series. -/
theorem c1_witness :
    (getHistoryKLineData exEnvOk 1000 (getHistoryKLineData exEnvOk 0 exState100
        exSym exPer 0 1).state exSym exPer 0 1).requests = []
    ∧ (getHistoryKLineData exEnvOk 1000 (getHistoryKLineData exEnvOk 0 exState100
        exSym exPer 0 1).state exSym exPer 0 1).result = .ok exData
    ∧ (getHistoryKLineData exEnvOk 0 exState100 exSym exPer 0 1).requests.length
        = 1 := by
  have h := c1_second_call_cached exEnvOk exEnvOk exState100 0 1000 exSym exPer 0 1
    exData (by decide) (by intro p hp; cases hp) (by decide) (by decide) (by decide)
    (by decide)
  exact ⟨h.1, h.2.1, h.2.2 (by decide)⟩

end Datafeed
